import Mathlib

set_option maxHeartbeats 1000000

/-!
Shallow embedding of the optimisation-cheatsheet snippet functions
(branching.cpp, looping.cpp, memory.cpp) and proofs about them.

Conventions of the embedding:
- C++ `int` values are modelled as `Int` (signed overflow is undefined
  behaviour in the source, so the unbounded model covers every defined
  execution).
- `std::vector<int>` is modelled as `List Int`; in-place mutation becomes
  explicit state passing, and an out-of-bounds `operator[]` access
  (undefined behaviour) makes the embedding return `none`.
- C arrays accessed through raw pointers are modelled as total functions
  `Nat → Int` updated pointwise.
- The C `%` on `int` truncates towards zero, which is `Int.tmod`.
-/

/-! ### branching.cpp -/

/-- `enum class YesNo { Yes, No };` from branching.cpp. -/
inductive YesNo where
| Yes : YesNo
| No : YesNo
deriving DecidableEq

/-- `branch_removal<N>` from branching.cpp: `if constexpr (N > 10) return true; else return false;`.
`N` is a `std::size_t` template parameter, modelled as `Nat`. -/
def branch_removal (N : Nat) : Bool :=
  if N > 10 then true else false

/-- The resolved specialization `branch_removal<11>` from branching.cpp
(`if constexpr (true) { return true; }`). -/
def branch_removal_11 : Bool := true

/-- The resolved specialization `branch_removal<9>` from branching.cpp
(`if constexpr (false) {} else { return false; }`). -/
def branch_removal_9 : Bool := false

/-- `branch_ex_1` from branching.cpp. The static global `int count` that the
function increments is passed in and returned explicitly: the result is
(return value, new value of `count`). -/
def branch_ex_1 (yesno : YesNo) (count : Int) : Bool × Int :=
  if yesno = YesNo.Yes then (true, count + 1) else (false, count)

/-- `branch_ex_2` from branching.cpp; identical to `branch_ex_1` except for the
extra unused parameter `a` and the `[[unlikely]]` hint (which has no semantic
effect). It updates the same static global `count`. -/
def branch_ex_2 (yesno : YesNo) (a : Int) (count : Int) : Bool × Int :=
  if yesno = YesNo.Yes then (true, count + 1) else (false, count)

/-- Loop body of `branch_while_1` from branching.cpp:
`while (i < in.size()) { in[i] += 1; i++; }`. -/
def bw1Go (l : List Int) (i : Nat) : List Int :=
  if h : i < l.length then
    bw1Go (l.set i (l.get ⟨i, h⟩ + 1)) (i + 1)
  else
    l
termination_by l.length - i
decreasing_by simp [List.length_set]; omega

/-- `branch_while_1` from branching.cpp. -/
def branch_while_1 (l : List Int) : List Int := bw1Go l 0

/-- Loop body of `branch_while_2` from branching.cpp:
`do { in[i] += 1; i++; } while (i < in.size());` — the body runs before the
test, so `in[i]` is read unconditionally; if it is out of bounds the access is
undefined behaviour, modelled as `none`. -/
def bw2Go (l : List Int) (i : Nat) : Option (List Int) :=
  if h : i < l.length then
    let l2 := l.set i (l.get ⟨i, h⟩ + 1)
    if i + 1 < l2.length then bw2Go l2 (i + 1) else some l2
  else
    none
termination_by l.length - i
decreasing_by simp [List.length_set]; omega

/-- `branch_while_2` from branching.cpp. -/
def branch_while_2 (l : List Int) : Option (List Int) := bw2Go l 0

/-- Loop of `branch_mispredict` from branching.cpp:
`for (int x : data) { if (x % 2 == 0) sum += x; }` with accumulator `sum`. -/
def bmGo (sum : Int) : List Int → Int
| [] => sum
| x :: xs => bmGo (if Int.tmod x 2 = 0 then sum + x else sum) xs

/-- `branch_mispredict` from branching.cpp: returns `sum > 1000`. -/
def branch_mispredict (data : List Int) : Bool :=
  decide (bmGo 0 data > 1000)

/-- Loop of `branch_predict` from branching.cpp:
`sum += x * ((x % 2) == 0);` — the bool converts to 1 or 0. -/
def bpGo (sum : Int) : List Int → Int
| [] => sum
| x :: xs => bpGo (sum + x * (if Int.tmod x 2 = 0 then 1 else 0)) xs

/-- `branch_predict` from branching.cpp: returns `sum > 1000`. -/
def branch_predict (data : List Int) : Bool :=
  decide (bpGo 0 data > 1000)

/-- Sum of the even elements of a list (the quantity both branch functions
accumulate). -/
def sumEven (l : List Int) : Int :=
  (l.filter (fun x => Int.tmod x 2 = 0)).sum

/-! ### Helper lemmas about in-place list updates -/

/-- Taking `i + 1` elements after setting index `i` yields the prefix plus the
new value. -/
theorem take_succ_set {α : Type} (l : List α) (i : Nat) (v : α) (h : i < l.length) :
    (l.set i v).take (i + 1) = l.take i ++ [v] := by
  induction l generalizing i with
  | nil => simp at h
  | cons x xs ih =>
    cases i with
    | zero => simp
    | succ i =>
      simp only [List.set_cons_succ, List.take_succ_cons, List.length_cons] at *
      rw [ih i (by omega)]
      simp

/-- One in-place update step, seen through the take/map/drop decomposition:
updating index `i` with `f` and advancing the split point from `i` to `i + 1`
leaves the decomposition of the eventual result unchanged. -/
theorem take_map_step {α : Type} (l : List α) (i : Nat) (h : i < l.length) (f : α → α) :
    (l.set i (f (l.get ⟨i, h⟩))).take (i + 1)
      ++ ((l.set i (f (l.get ⟨i, h⟩))).drop (i + 1)).map f
      = l.take i ++ (l.drop i).map f := by
  rw [take_succ_set l i _ h, List.drop_set_of_lt _ _ (Nat.lt_succ_self i),
    List.drop_eq_getElem_cons h, List.map_cons]
  simp only [List.get_eq_getElem, List.append_assoc, List.cons_append, List.nil_append]

/-- Closed form of the `branch_while_1` loop: from position `i` it maps
`(+1)` over the suffix. -/
theorem bw1Go_eq (l : List Int) (i : Nat) :
    bw1Go l i = l.take i ++ (l.drop i).map (fun x => x + 1) := by
  generalize hn : l.length - i = n
  induction n generalizing l i with
  | zero =>
    rw [bw1Go]
    have h : ¬ i < l.length := by omega
    rw [dif_neg h, List.drop_eq_nil_of_le (by omega), List.take_of_length_le (by omega)]
    simp
  | succ n ih =>
    have h : i < l.length := by omega
    rw [bw1Go, dif_pos h, ih _ _ (by simp [List.length_set]; omega)]
    exact take_map_step l i h (fun x => x + 1)

/-- Closed form of the `branch_while_2` loop: started in bounds it maps
`(+1)` over the suffix; the out-of-bounds branch is not taken. -/
theorem bw2Go_eq (l : List Int) (i : Nat) (hi : i < l.length) :
    bw2Go l i = some (l.take i ++ (l.drop i).map (fun x => x + 1)) := by
  generalize hn : l.length - i = n
  induction n generalizing l i with
  | zero => omega
  | succ n ih =>
    rw [bw2Go, dif_pos hi]
    by_cases h2 : i + 1 < (l.set i (l.get ⟨i, hi⟩ + 1)).length
    · rw [if_pos h2, ih _ _ h2 (by simp [List.length_set]; omega)]
      have := take_map_step l i hi (fun x => x + 1)
      simp only [this]
    · rw [if_neg h2]
      have hlen : l.length = i + 1 := by
        simp [List.length_set] at h2; omega
      have hset : l.set i (l.get ⟨i, hi⟩ + 1)
          = l.take i ++ (l.get ⟨i, hi⟩ + 1) :: l.drop (i + 1) := by
        rw [List.set_eq_take_append_cons_drop, if_pos hi]
      rw [hset, List.drop_eq_getElem_cons hi, List.drop_eq_nil_of_le (by omega)]
      simp [List.get_eq_getElem]

/-! ### Theorems about branching.cpp -/

/-- C8: for every compile-time size `N`, `branch_removal<N>()` returns true
iff `N > 10`; the resolved specializations `branch_removal<11>` and
`branch_removal<9>` return true and false respectively, agreeing with the
generic template. -/
theorem branch_removal_spec :
    (∀ N : Nat, branch_removal N = decide (N > 10))
    ∧ branch_removal_11 = true ∧ branch_removal_9 = false
    ∧ branch_removal 11 = branch_removal_11
    ∧ branch_removal 9 = branch_removal_9 := by
  refine ⟨fun N => ?_, rfl, rfl, by decide, by decide⟩
  by_cases h : N > 10 <;> simp [branch_removal, h]

/-- C7: `branch_ex_1` and `branch_ex_2` return the same boolean for the same
`YesNo` input (whatever the extra `int a` and the current value of the shared
counter), and that boolean is true exactly when the input is `Yes`. -/
theorem branch_ex_equiv :
    ∀ (y : YesNo) (a count count2 : Int),
      (branch_ex_1 y count).1 = (branch_ex_2 y a count2).1
      ∧ ((branch_ex_1 y count).1 = true ↔ y = YesNo.Yes) := by
  intro y a count count2
  cases y <;> simp [branch_ex_1, branch_ex_2]

/-- C3 counterexample: `branch_ex_1` and `branch_ex_2` read and write the same
static counter `count`. Calling `branch_ex_1 Yes` when `count = 0` leaves
`count = 1`, not unchanged; starting from that mutated state, `branch_ex_2 Yes`
produces final counter 2, whereas from the unmutated state it would produce 1 —
so calling one snippet changes a variable observable by the other. -/
theorem snippets_share_count :
    (branch_ex_1 YesNo.Yes 0).2 = 1
    ∧ (branch_ex_1 YesNo.Yes 0).2 ≠ 0
    ∧ (branch_ex_2 YesNo.Yes 0 (branch_ex_1 YesNo.Yes 0).2).2 = 2
    ∧ (branch_ex_2 YesNo.Yes 0 0).2 = 1 := by
  refine ⟨rfl, by decide, rfl, rfl⟩

/-- C3 amended: the static counter `count` in branching.cpp is mutable state
shared by the two snippet functions `branch_ex_1` and `branch_ex_2`: each of
them increments that same counter exactly when its argument is `Yes` (and
leaves it unchanged otherwise). -/
theorem branch_ex_mutate_shared_count :
    ∀ (y : YesNo) (a count : Int),
      (branch_ex_1 y count).2 = count + (if y = YesNo.Yes then 1 else 0)
      ∧ (branch_ex_2 y a count).2 = count + (if y = YesNo.Yes then 1 else 0) := by
  intro y a count
  cases y <;> simp [branch_ex_1, branch_ex_2]

/-- C2 counterexample: on the empty vector the do-while body of
`branch_while_2` reads `in[0]` out of bounds (undefined behaviour, `none` in
the embedding), so it does not terminate normally with the same final state as
`branch_while_1`, which returns the empty vector unchanged. -/
theorem branch_while_2_empty_diverges :
    branch_while_2 [] = none ∧ branch_while_1 [] = [] := by
  constructor
  · rw [branch_while_2, bw2Go]
    simp
  · rw [branch_while_1, bw1Go]
    simp

/-- C2 amended: for every NON-EMPTY vector of ints, `branch_while_1` and
`branch_while_2` terminate normally and leave the vector in the same final
state, with every element incremented by 1 (for the empty vector
`branch_while_2` reads out of bounds). -/
theorem branch_while_equiv (l : List Int) (h : l ≠ []) :
    branch_while_2 l = some (branch_while_1 l)
    ∧ branch_while_1 l = l.map (fun x => x + 1) := by
  have h0 : 0 < l.length := List.length_pos.mpr h
  have e1 : branch_while_1 l = l.map (fun x => x + 1) := by
    rw [branch_while_1, bw1Go_eq]
    simp
  refine ⟨?_, e1⟩
  rw [branch_while_2, bw2Go_eq l 0 h0, e1]
  simp

/-- Witness for C2: the amended equivalence applied to the concrete vector
`[1, 2]`. -/
theorem branch_while_equiv_witness :
    ([1, 2] : List Int) ≠ []
    ∧ branch_while_2 [1, 2] = some (branch_while_1 [1, 2])
    ∧ branch_while_1 [1, 2] = [2, 3] := by
  have h := branch_while_equiv [1, 2] (by decide)
  exact ⟨by decide, h.1, by rw [h.2]; decide⟩

/-- The `branch_mispredict` accumulator adds the sum of the even suffix
elements. -/
theorem bmGo_eq (l : List Int) : ∀ s : Int, bmGo s l = s + sumEven l := by
  induction l with
  | nil => intro s; simp [bmGo, sumEven]
  | cons x xs ih =>
    intro s
    by_cases h : Int.tmod x 2 = 0
    · simp only [bmGo, if_pos h, ih]
      simp [sumEven, List.filter_cons, h]
      ring
    · simp only [bmGo, if_neg h, ih]
      simp [sumEven, List.filter_cons, h]

/-- The `branch_predict` accumulator adds the same quantity: the arithmetic
trick `x * ((x % 2) == 0)` contributes `x` for even `x` and `0` for odd `x`. -/
theorem bpGo_eq (l : List Int) : ∀ s : Int, bpGo s l = s + sumEven l := by
  induction l with
  | nil => intro s; simp [bpGo, sumEven]
  | cons x xs ih =>
    intro s
    by_cases h : Int.tmod x 2 = 0
    · simp only [bpGo, if_pos h, ih]
      simp [sumEven, List.filter_cons, h]
      ring
    · simp only [bpGo, if_neg h, ih]
      simp [sumEven, List.filter_cons, h]

/-- C5: `branch_mispredict` and `branch_predict` return the same boolean on
every vector of ints (negative and odd values included), namely whether the
sum of the even elements exceeds 1000. -/
theorem branch_predict_equiv :
    ∀ data : List Int,
      branch_mispredict data = branch_predict data
      ∧ branch_mispredict data = decide (sumEven data > 1000) := by
  intro data
  rw [branch_mispredict, branch_predict, bmGo_eq, bpGo_eq]
  simp

/-! ### looping.cpp -/

/-- A counted `for` loop: `loopIter f start k s` applies the body `f` to the
state `s` at indices `start, start + 1, ..., start + k - 1` in order. -/
def loopIter {α : Type} (f : Nat → α → α) : Nat → Nat → α → α
| _, 0, s => s
| start, k + 1, s => loopIter f (start + 1) k (f start s)

/-- One iteration of the `data_dependancy_1` loop from looping.cpp:
`a[i] += b[i]; b[i+1] += c[i];`. The state is the pair of arrays `(a, b)`
modelled as functions; `c` is only read. -/
def dd1Step (c : Nat → Int) (i : Nat) (s : (Nat → Int) × (Nat → Int)) :
    (Nat → Int) × (Nat → Int) :=
  let a1 : Nat → Int := fun j => if j = i then s.1 i + s.2 i else s.1 j
  let b1 : Nat → Int := fun j => if j = i + 1 then s.2 (i + 1) + c i else s.2 j
  (a1, b1)

/-- `data_dependancy_1` from looping.cpp:
`for (int i = 0; i <= 998; ++i) { a[i] += b[i]; b[i+1] += c[i]; } return b[999];`
— 999 iterations starting at 0. The result is the final `(a, b)` pair together
with the returned `b[999]`. -/
def data_dependancy_1 (a b c : Nat → Int) : ((Nat → Int) × (Nat → Int)) × Int :=
  let s := loopIter (dd1Step c) 0 999 (a, b)
  (s, s.2 999)

/-- One iteration of the `data_dependancy_2` loop from looping.cpp:
`b[i+1] += c[i]; a[i+1] += b[i+1];` (the `a` update reads the freshly
updated `b[i+1]`). -/
def dd2Step (c : Nat → Int) (i : Nat) (s : (Nat → Int) × (Nat → Int)) :
    (Nat → Int) × (Nat → Int) :=
  let b1 : Nat → Int := fun j => if j = i + 1 then s.2 (i + 1) + c i else s.2 j
  let a1 : Nat → Int := fun j => if j = i + 1 then s.1 (i + 1) + b1 (i + 1) else s.1 j
  (a1, b1)

/-- `data_dependancy_2` from looping.cpp:
`a[0] += b[0]; for (int i = 1; i < 998; ++i) { b[i+1] += c[i]; a[i+1] += b[i+1]; } return b[999];`
— the loop runs for `i = 1, ..., 997`, i.e. 997 iterations starting at 1. -/
def data_dependancy_2 (a b c : Nat → Int) : ((Nat → Int) × (Nat → Int)) × Int :=
  let a0 : Nat → Int := fun j => if j = 0 then a 0 + b 0 else a j
  let s := loopIter (dd2Step c) 1 997 (a0, b)
  (s, s.2 999)

/-- Loop of `loop_fusion` from looping.cpp:
`for (i = 0; i < a.size(); ++i) { a[i] += 1; b[i] *= 2; }`. The bound is
`a.size()`, so the access `b[i]` can be out of bounds (undefined behaviour,
modelled as `none`). -/
def lfuGo (a b : List Int) (i : Nat) : Option (List Int × List Int) :=
  if ha : i < a.length then
    let a2 := a.set i (a.get ⟨i, ha⟩ + 1)
    if hb : i < b.length then
      lfuGo a2 (b.set i (b.get ⟨i, hb⟩ * 2)) (i + 1)
    else
      none
  else
    some (a, b)
termination_by a.length - i
decreasing_by simp [List.length_set]; omega

/-- `loop_fusion` from looping.cpp. -/
def loop_fusion (a b : List Int) : Option (List Int × List Int) := lfuGo a b 0

/-- First loop of `loop_fission` from looping.cpp:
`for (i = 0; i < a.size(); ++i) { a[i] += 1; }`. -/
def lfiGoA (a : List Int) (i : Nat) : List Int :=
  if h : i < a.length then
    lfiGoA (a.set i (a.get ⟨i, h⟩ + 1)) (i + 1)
  else
    a
termination_by a.length - i
decreasing_by simp [List.length_set]; omega

/-- Second loop of `loop_fission` from looping.cpp:
`for (i = 0; i < b.size(); ++i) { b[i] *= 2; }`. -/
def lfiGoB (b : List Int) (i : Nat) : List Int :=
  if h : i < b.length then
    lfiGoB (b.set i (b.get ⟨i, h⟩ * 2)) (i + 1)
  else
    b
termination_by b.length - i
decreasing_by simp [List.length_set]; omega

/-- `loop_fission` from looping.cpp: both loops are always in bounds, each
bounded by the size of the vector it touches. -/
def loop_fission (a b : List Int) : List Int × List Int :=
  (lfiGoA a 0, lfiGoB b 0)

/-- `*to++ = *from++;` executed `k` times: copies `k` bytes starting at
offset `pos` from the source buffer into the destination buffer. Buffers are
modelled as total functions on byte offsets; the C++ parameters are named
`to` and `from`, both reserved words in Lean, hence `dst` and `src` here. -/
def copyN (dst src : Nat → Int) (pos : Nat) : Nat → (Nat → Int)
| 0 => dst
| k + 1 => copyN (fun j => if j = pos then src pos else dst j) src (pos + 1) k

/-- The remaining full passes of the `duffs_device` do-while loop: `m` further
rounds of eight `*to++ = *from++;` statements starting at offset `pos`. -/
def duffRounds (src : Nat → Int) (dst : Nat → Int) (pos : Nat) : Nat → (Nat → Int)
| 0 => dst
| m + 1 => duffRounds src (copyN dst src pos 8) (pos + 8) m

/-- `duffs_device` from looping.cpp. `n = (count + 7) / 8` passes are intended;
`switch (count % 8)` jumps into the middle of the unrolled do-while body, so
the first (partial) pass copies `count % 8` bytes — eight when `count % 8 == 0`,
since `case 0` sits at the top of the body. The loop condition `--n > 0` uses
the `std::size_t` variable `n`, so decrementing `n = 0` wraps to `2^64 - 1`:
entering with `count == 0` performs `2^64` passes in all. -/
def duffs_device (dst src : Nat → Int) (count : Nat) : Nat → Int :=
  let n := (count + 7) / 8
  let k := if count % 8 = 0 then 8 else count % 8
  let m := if n = 0 then 2 ^ 64 - 1 else n - 1
  duffRounds src (copyN dst src 0 k) k m

/-! ### memory.cpp -/

/-- Loop of `software_prefetch` from memory.cpp:
`for (i = 0; i < N; i += 4) { _mm_prefetch(...); data[i] += 1.0f; }`.
The `_mm_prefetch` intrinsic is a cache hint with no architectural effect on
the data. The element type and the `+= 1.0f` float operation are abstracted
as a type `α` with an update function `f1` (IEEE float arithmetic itself is
not modelled; only which elements get the update applied). -/
def spGo {α : Type} (f1 : α → α) (N : Nat) (data : Nat → α) (i : Nat) : Nat → α :=
  if i < N then
    spGo f1 N (fun j => if j = i then f1 (data i) else data j) (i + 4)
  else
    data
termination_by N - i
decreasing_by omega

/-- `software_prefetch` from memory.cpp. -/
def software_prefetch {α : Type} (f1 : α → α) (data : Nat → α) (N : Nat) : Nat → α :=
  spGo f1 N data 0

/-! ### Theorems about looping.cpp -/

set_option maxRecDepth 100000

/-- C1: `data_dependancy_1` and `data_dependancy_2` are NOT equivalent. On the
concrete input `a = b = (0,...,0)`, `c = (1,...,1)` (1000 elements each),
`data_dependancy_1` returns 1 and leaves `b[1] = 1`, while `data_dependancy_2`
returns 0 and leaves `b[1] = 0`: the second loop skips the updates of `b[1]`,
`a[1]` and `b[999]` that the first performs. -/
theorem data_dependancy_diverge :
    (data_dependancy_1 (fun _ => 0) (fun _ => 0) (fun _ => 1)).2 = 1
    ∧ (data_dependancy_2 (fun _ => 0) (fun _ => 0) (fun _ => 1)).2 = 0
    ∧ (data_dependancy_1 (fun _ => 0) (fun _ => 0) (fun _ => 1)).1.2 1 = 1
    ∧ (data_dependancy_2 (fun _ => 0) (fun _ => 0) (fun _ => 1)).1.2 1 = 0 := by
  exact ⟨by decide, by decide, by decide, by decide⟩

/-- Closed form of the first `loop_fission` loop: from position `i` it maps
`(+1)` over the suffix of `a`. -/
theorem lfiGoA_eq (a : List Int) (i : Nat) :
    lfiGoA a i = a.take i ++ (a.drop i).map (fun x => x + 1) := by
  generalize hn : a.length - i = n
  induction n generalizing a i with
  | zero =>
    rw [lfiGoA]
    have h : ¬ i < a.length := by omega
    rw [dif_neg h, List.drop_eq_nil_of_le (by omega), List.take_of_length_le (by omega)]
    simp
  | succ n ih =>
    have h : i < a.length := by omega
    rw [lfiGoA, dif_pos h, ih _ _ (by simp [List.length_set]; omega)]
    exact take_map_step a i h (fun x => x + 1)

/-- Closed form of the second `loop_fission` loop: from position `i` it maps
`(*2)` over the suffix of `b`. -/
theorem lfiGoB_eq (b : List Int) (i : Nat) :
    lfiGoB b i = b.take i ++ (b.drop i).map (fun x => x * 2) := by
  generalize hn : b.length - i = n
  induction n generalizing b i with
  | zero =>
    rw [lfiGoB]
    have h : ¬ i < b.length := by omega
    rw [dif_neg h, List.drop_eq_nil_of_le (by omega), List.take_of_length_le (by omega)]
    simp
  | succ n ih =>
    have h : i < b.length := by omega
    rw [lfiGoB, dif_pos h, ih _ _ (by simp [List.length_set]; omega)]
    exact take_map_step b i h (fun x => x * 2)

/-- Closed form of the `loop_fusion` loop for vectors of EQUAL length: no
access is out of bounds and both suffixes get mapped. -/
theorem lfuGo_eq (a b : List Int) (i : Nat) (hab : a.length = b.length) :
    lfuGo a b i = some (a.take i ++ (a.drop i).map (fun x => x + 1),
      b.take i ++ (b.drop i).map (fun x => x * 2)) := by
  generalize hn : a.length - i = n
  induction n generalizing a b i with
  | zero =>
    rw [lfuGo]
    have h : ¬ i < a.length := by omega
    rw [dif_neg h, List.drop_eq_nil_of_le (by omega), List.drop_eq_nil_of_le (by omega),
      List.take_of_length_le (by omega), List.take_of_length_le (by omega)]
    simp
  | succ n ih =>
    have ha : i < a.length := by omega
    have hb : i < b.length := by omega
    rw [lfuGo, dif_pos ha, dif_pos hb,
      ih _ _ _ (by simp [List.length_set]; omega) (by simp [List.length_set]; omega)]
    have e1 := take_map_step a i ha (fun x => x + 1)
    have e2 := take_map_step b i hb (fun x => x * 2)
    simp only [e1, e2]

/-- The `loop_fusion` loop never reaches its out-of-bounds branch when `b` is
at least as long as `a`. -/
theorem lfuGo_isSome (a b : List Int) (i : Nat) (hab : a.length ≤ b.length) :
    (lfuGo a b i).isSome = true := by
  generalize hn : a.length - i = n
  induction n generalizing a b i with
  | zero =>
    rw [lfuGo]
    have h : ¬ i < a.length := by omega
    rw [dif_neg h]
    rfl
  | succ n ih =>
    have ha : i < a.length := by omega
    have hb : i < b.length := by omega
    rw [lfuGo, dif_pos ha, dif_pos hb]
    exact ih _ _ _ (by simp [List.length_set]; omega) (by simp [List.length_set]; omega)

/-- C4 counterexample: with `a = []` and `b = [1]`, `loop_fusion` leaves `b`
untouched (its loop is bounded by `a.size()`), while `loop_fission` doubles
every element of `b`; the final states differ, so the claim fails for vectors
of different lengths. -/
theorem loop_fusion_fission_differ :
    loop_fusion [] [1] = some ([], [1])
    ∧ loop_fission [] [1] = ([], [2])
    ∧ ([1] : List Int) ≠ [2] := by
  refine ⟨?_, ?_, by decide⟩
  · rw [loop_fusion, lfuGo]
    simp
  · rw [loop_fission, lfiGoA_eq, lfiGoB_eq]
    decide

/-- C4 amended: for every pair of int vectors `a`, `b` of EQUAL length,
`loop_fusion` and `loop_fission` leave `a` and `b` in the same final state:
each element of `a` incremented by 1 and each element of `b` doubled (for
unequal lengths the two differ, and `loop_fusion` goes out of bounds when
`b` is shorter than `a`). -/
theorem loop_fusion_fission_equiv (a b : List Int) (h : a.length = b.length) :
    loop_fusion a b = some (a.map (fun x => x + 1), b.map (fun x => x * 2))
    ∧ loop_fission a b = (a.map (fun x => x + 1), b.map (fun x => x * 2)) := by
  constructor
  · rw [loop_fusion, lfuGo_eq a b 0 h]
    simp
  · rw [loop_fission, lfiGoA_eq, lfiGoB_eq]
    simp

/-- Witness for C4: the amended equivalence applied to `a = [1]`, `b = [3]`. -/
theorem loop_fusion_fission_equiv_witness :
    ([1] : List Int).length = ([3] : List Int).length
    ∧ loop_fusion [1] [3] = some ([2], [6])
    ∧ loop_fission [1] [3] = ([2], [6]) := by
  have h := loop_fusion_fission_equiv [1] [3] (by decide)
  exact ⟨by decide, by rw [h.1]; decide, by rw [h.2]; decide⟩

/-- C9: whenever `b` is at least as long as `a`, every index into `a` and `b`
performed by `loop_fusion` is within bounds: the out-of-bounds branch of the
embedding is unreachable and a result is returned. -/
theorem loop_fusion_inbounds (a b : List Int) (h : a.length ≤ b.length) :
    (loop_fusion a b).isSome = true := by
  rw [loop_fusion]
  exact lfuGo_isSome a b 0 h

/-- Witness for C9: in-bounds execution on `a = [5]`, `b = [7, 9]`. -/
theorem loop_fusion_inbounds_witness :
    ([5] : List Int).length ≤ ([7, 9] : List Int).length
    ∧ (loop_fusion [5] [7, 9]).isSome = true :=
  ⟨by decide, loop_fusion_inbounds [5] [7, 9] (by decide)⟩

/-- `copyN` writes `src` onto the window `[pos, pos + k)` and nothing else. -/
theorem copyN_eq (k : Nat) : ∀ (dst src : Nat → Int) (pos j : Nat),
    copyN dst src pos k j = if pos ≤ j ∧ j < pos + k then src j else dst j := by
  induction k with
  | zero =>
    intro dst src pos j
    simp only [copyN]
    rw [if_neg (by omega : ¬ (pos ≤ j ∧ j < pos + 0))]
  | succ k ih =>
    intro dst src pos j
    rw [copyN, ih]
    by_cases hj : j = pos
    · subst hj
      have h1 : ¬ (j + 1 ≤ j ∧ j < j + 1 + k) := by omega
      have h2 : j ≤ j ∧ j < j + (k + 1) := by omega
      simp [h1, h2]
    · simp only [if_neg hj]
      split_ifs <;> first | rfl | (exfalso; omega)

/-- `duffRounds` writes `src` onto the window `[pos, pos + 8 * m)` and nothing
else. -/
theorem duffRounds_eq (m : Nat) : ∀ (src dst : Nat → Int) (pos j : Nat),
    duffRounds src dst pos m j = if pos ≤ j ∧ j < pos + 8 * m then src j else dst j := by
  induction m with
  | zero =>
    intro src dst pos j
    simp only [duffRounds]
    rw [if_neg (by omega : ¬ (pos ≤ j ∧ j < pos + 8 * 0))]
  | succ m ih =>
    intro src dst pos j
    rw [duffRounds, ih, copyN_eq]
    split_ifs <;> first | rfl | (exfalso; omega)

/-- C6: for every `count >= 1`, `duffs_device` copies exactly the first
`count` bytes: destination index `i` holds the source byte `src i` for
`i < count` and its original value for `i >= count` (the source buffer is a
read-only input of the embedding and is never written). The precondition is
genuine: with `count = 0` the wrapped do-while writes `2^64` rounds of bytes,
so destination index 0 (which is `>= count`) is overwritten with `src 0`. -/
theorem duffs_device_correct :
    (∀ (dst src : Nat → Int) (count i : Nat), 1 ≤ count →
      duffs_device dst src count i = if i < count then src i else dst i)
    ∧ duffs_device (fun _ => 0) (fun _ => 1) 0 0 = 1 := by
  constructor
  · intro dst src count i h
    simp only [duffs_device, duffRounds_eq, copyN_eq]
    have h8 : (count + 7) / 8 ≠ 0 := by omega
    rw [if_neg h8]
    by_cases hr : count % 8 = 0
    · rw [if_pos hr]
      split_ifs <;> first | rfl | (exfalso; omega)
    · rw [if_neg hr]
      split_ifs <;> first | rfl | (exfalso; omega)
  · simp only [duffs_device, duffRounds_eq, copyN_eq]
    norm_num

/-- Witness for C6: the copy guarantee applied at `count = 3` for an index
inside and an index outside the copied window. -/
theorem duffs_device_correct_witness :
    (1 : Nat) ≤ 3
    ∧ duffs_device (fun _ => 0) (fun j => (j : Int) + 10) 3 1 = 11
    ∧ duffs_device (fun _ => 0) (fun j => (j : Int) + 10) 3 5 = 0 := by
  refine ⟨by decide, ?_, ?_⟩
  · have h := duffs_device_correct.1 (fun _ => 0) (fun j => (j : Int) + 10) 3 1 (by decide)
    simpa using h
  · have h := duffs_device_correct.1 (fun _ => 0) (fun j => (j : Int) + 10) 3 5 (by decide)
    simpa using h

/-! ### Theorems about memory.cpp -/

/-- The `software_prefetch` loop, entered at a position `i` that is a multiple
of 4, applies the update to exactly the indices `j >= i` below `N` that are
multiples of 4. -/
theorem spGo_eq {α : Type} (f1 : α → α) (N : Nat) :
    ∀ (n : Nat) (data : Nat → α) (i : Nat), N - i ≤ n → i % 4 = 0 →
      ∀ j, spGo f1 N data i j
        = if i ≤ j ∧ j < N ∧ j % 4 = 0 then f1 (data j) else data j := by
  intro n
  induction n with
  | zero =>
    intro data i hle hi j
    rw [spGo, if_neg (by omega), if_neg (by omega : ¬ (i ≤ j ∧ j < N ∧ j % 4 = 0))]
  | succ n ih =>
    intro data i hle hi j
    rw [spGo]
    by_cases h : i < N
    · rw [if_pos h, ih _ _ (by omega) (by omega) j]
      by_cases hj : j = i
      · subst hj
        rw [if_neg (by omega : ¬ (j + 4 ≤ j ∧ j < N ∧ j % 4 = 0)),
          if_pos (by omega : j ≤ j ∧ j < N ∧ j % 4 = 0)]
        simp
      · simp only [if_neg hj]
        split_ifs <;> first | rfl | (exfalso; omega)
    · rw [if_neg h, if_neg (by omega : ¬ (i ≤ j ∧ j < N ∧ j % 4 = 0))]

/-- C10: after `software_prefetch` runs over `N` elements, every index `i < N`
that is a multiple of 4 holds its value with the `+= 1.0f` update `f1` applied
once, and every other index is unchanged (the `_mm_prefetch` hint touches no
data; the float operation itself is abstracted as `f1`). -/
theorem software_prefetch_frame {α : Type} (f1 : α → α) (data : Nat → α) (N : Nat) :
    ∀ i, software_prefetch f1 data N i
      = if i < N ∧ i % 4 = 0 then f1 (data i) else data i := by
  intro i
  rw [software_prefetch, spGo_eq f1 N N data 0 (by omega) (by decide) i]
  split_ifs <;> first | rfl | (exfalso; omega)
